import Mathlib

set_option maxHeartbeats 1000000

/-! Verification of the dslf redirect service: rule loading, request
resolution, status-code translation (src/main.rs) and the link
importer's conversion step (src/import.rs), via a shallow embedding of
the relevant functions. -/

/-- Rust `String` / `&str` values are embedded as lists of characters. -/
abbrev Str := List Char

/-- Embed a Lean string literal as a `Str`. -/
def str (s : String) : Str := s.data

/-- Decimal rendering of a natural number, as Rust `format!("{n}")`. -/
def natStr (n : Nat) : Str := (Nat.repr n).data

/-- An HTTP response as built by `create_redirect_response` in
src/main.rs: a status code, a header list and a body. -/
structure Response where
  status : Nat
  headers : List (Str × Str)
  body : Str
deriving DecidableEq

/-- src/main.rs `create_redirect_response`: translate the stored status
(301/302) and the modern flag to the wire status code, attach the
`Location` header with the target verbatim and an empty body; any other
stored status takes the error branch carrying 500
(`StatusCode::INTERNAL_SERVER_ERROR`). -/
def create_redirect_response (target : Str) (status : Nat) (modern : Bool) :
    Except Nat Response :=
  match status, modern with
  | 301, false => .ok ⟨301, [(str "location", target)], []⟩
  | 301, true => .ok ⟨308, [(str "location", target)], []⟩
  | 302, false => .ok ⟨302, [(str "location", target)], []⟩
  | 302, true => .ok ⟨307, [(str "location", target)], []⟩
  | _, _ => .error 500

/-- Rust `str::trim_end_matches('/')`: remove every trailing `'/'`. -/
def trimEndMatchesSlash (s : Str) : Str :=
  ((s.reverse).dropWhile (fun c => c == '/')).reverse

/-- The rule table `HashMap<String, (String, u16)>` of src/main.rs,
embedded as an association list whose insert overwrites the existing
entry of the same key (the `HashMap::insert` semantics). -/
abbrev Table := List (Str × (Str × Nat))

/-- `HashMap::get` on the embedded table. -/
def tableGet? : Table → Str → Option (Str × Nat)
  | [], _ => none
  | (k, v) :: m, p => if k = p then some v else tableGet? m p

/-- `HashMap::insert` on the embedded table: the new entry replaces any
entry of the same key. -/
def tableInsert (m : Table) (k : Str) (v : Str × Nat) : Table :=
  (k, v) :: m.filter (fun q => decide (q.1 ≠ k))

/-- Number of entries of the table holding key `p`. -/
def countKey (m : Table) (p : Str) : Nat :=
  (m.filter (fun q => decide (q.1 = p))).length

/-- src/main.rs `handle_redirect`: axum hands over the captured wildcard
`path` without its leading slash; the handler prepends `'/'`, tries an
exact table lookup, then a lookup of the path with all trailing slashes
trimmed, and otherwise fails with 404 (`StatusCode::NOT_FOUND`). -/
def handle_redirect (rules : Table) (modern : Bool) (path : Str) :
    Except Nat Response :=
  let request_path := '/' :: path
  match tableGet? rules request_path with
  | some (target, status) => create_redirect_response target status modern
  | none =>
    let trimmed_path := trimEndMatchesSlash request_path
    match tableGet? rules trimmed_path with
    | some (target, status) => create_redirect_response target status modern
    | none => .error 404

/-- Split a string at every occurrence of `c`; always returns at least
one (possibly empty) piece.  Used for the `'\n'` line splitting and for
the comma field splitting of the csv crate restricted to unquoted
fields. -/
def splitOnChar (c : Char) : Str → List Str
  | [] => [[]]
  | a :: as =>
    let r := splitOnChar c as
    if a == c then [] :: r
    else
      match r with
      | [] => [[a]]
      | f :: rest => (a :: f) :: rest

/-- Drop one trailing carriage return (Rust `str::lines` strips a `'\r'`
that directly precedes the `'\n'` separator). -/
def stripTrailingCR (l : Str) : Str :=
  match l.getLast? with
  | some '\r' => l.dropLast
  | _ => l

/-- Rust `str::lines`: split at `'\n'`, dropping a final empty piece
(optional trailing newline) and stripping a `'\r'` before each `'\n'`. -/
def rustLines (s : Str) : List Str :=
  let parts := splitOnChar '\n' s
  match parts.getLast? with
  | some [] => parts.dropLast.map stripTrailingCR
  | some l => parts.dropLast.map stripTrailingCR ++ [l]
  | none => []

/-- A line that Rust `line.trim().is_empty()` reports blank, filtered
out by the preprocessing step of `load_redirect_rules`. -/
def isBlankLine (l : Str) : Bool := l.all Char.isWhitespace

/-- A line the csv reader's `comment(Some(b'#'))` setting discards: the
comment byte `'#'` must be the very first byte of the record line (csv
crate semantics; leading whitespace defeats it). -/
def isCommentLine (l : Str) : Bool := l.head? == some '#'

/-- Load failures of `load_redirect_rules`.  `rowError` stands for any
csv-crate deserialization error of one record (wrong field count,
missing column, unparseable status integer); `invalidStatus` is the
semantic validation error raised by src/main.rs itself. -/
inductive LoadError where
  | rowError : LoadError
  | invalidStatus : Nat → LoadError
deriving DecidableEq

/-- The message of a load error: for `invalidStatus` the exact
`format!` string of src/main.rs; the `rowError` text comes from the csv
library and is not modelled further. -/
def errMsg : LoadError → Str
  | .invalidStatus s => str "Invalid status code: " ++ natStr s ++ str ". Must be 301 or 302"
  | .rowError => str "CSV deserialize error"

/-- `hay` contains `needle` as a contiguous substring
(Rust `str::contains`). -/
def strContains (hay needle : Str) : Prop := ∃ l r, hay = l ++ needle ++ r

/-- The deserialized configuration row (struct `RedirectRule` of
src/main.rs, with `status: u16`). -/
structure RedirectRule where
  url : Str
  target : Str
  status : Nat
deriving DecidableEq

/-- Digit-string to number, most significant first. -/
def digitsToNat (l : Str) : Nat :=
  l.foldl (fun n c => n * 10 + (c.toNat - '0'.toNat)) 0

/-- Rust `str::parse::<u16>`: an optional leading `'+'`, then one or
more decimal digits, value at most 65535. -/
def parseU16? (s : Str) : Option Nat :=
  let t := match s with
    | '+' :: rest => rest
    | _ => s
  if (!t.isEmpty) && t.all Char.isDigit then
    if digitsToNat t ≤ 65535 then some (digitsToNat t) else none
  else none

/-- Index of the column with the given header name (serde's by-name
field lookup; first occurrence wins). -/
def colIdx (name : Str) : List Str → Option Nat
  | [] => none
  | f :: fs => if f = name then some 0 else (colIdx name fs).map (· + 1)

/-- Deserialize one csv record into a `RedirectRule` under the given
header, as the csv crate does with its default strict record lengths:
the record must have exactly as many fields as the header, the three
column names must be present in the header, and the status field must
parse as a `u16`; otherwise the record errors. -/
def parseRow (H : List Str) (line : Str) : Except LoadError RedirectRule :=
  let fields := splitOnChar ',' line
  if fields.length ≠ H.length then .error .rowError
  else
    match colIdx (str "url") H, colIdx (str "target") H, colIdx (str "status") H with
    | some ui, some ti, some si =>
      match fields.get? ui, fields.get? ti, fields.get? si with
      | some u, some t, some sf =>
        match parseU16? sf with
        | some n => .ok ⟨u, t, n⟩
        | none => .error .rowError
      | _, _, _ => .error .rowError
    | _, _, _ => .error .rowError

/-- The `Ok` payload of an `Except`, when present. -/
def exOk? {ε α : Type} : Except ε α → Option α
  | .ok a => some a
  | .error _ => none

/-- The deserialize/validate/insert loop of `load_redirect_rules`:
each record is parsed, its status checked against `{301, 302}`, and the
rule inserted; the first failing record aborts the whole load. -/
def build_rules (H : List Str) : List Str → Table → Except LoadError Table
  | [], acc => .ok acc
  | l :: ls, acc =>
    match parseRow H l with
    | .error e => .error e
    | .ok rule =>
      if rule.status ≠ 301 ∧ rule.status ≠ 302 then
        .error (.invalidStatus rule.status)
      else
        build_rules H ls (tableInsert acc rule.url (rule.target, rule.status))

/-- The load pipeline from the pre-split line list: drop blank lines
(the src/main.rs preprocessing), drop `'#'`-first comment lines (the
csv reader setting), read the first remaining record as the header and
deserialize the rest. -/
def load_from_lines (ls : List Str) : Except LoadError Table :=
  match (ls.filter (fun l => !(isBlankLine l))).filter (fun l => !(isCommentLine l)) with
  | [] => .ok []
  | hdr :: ds => build_rules (splitOnChar ',' hdr) ds []

/-- src/main.rs `load_redirect_rules` on already-read configuration
text (the file read itself is an external collaborator).  The csv
crate's record reading is modelled for unquoted fields without interior
carriage returns, per the configuration format of the spec. -/
def load_redirect_rules (content : Str) : Except LoadError Table :=
  load_from_lines (rustLines content)

/-- The record lines (blank and comment lines removed) of a
configuration text. -/
def configRecords (content : Str) : List Str :=
  ((rustLines content).filter (fun l => !(isBlankLine l))).filter (fun l => !(isCommentLine l))

/-- The successfully parsed rules of a data-line list, in source order. -/
def rowsOf (H : List Str) (ls : List Str) : List RedirectRule :=
  ls.filterMap (fun l => exOk? (parseRow H l))

/-- All parsed data rows of a configuration text. -/
def configRows (content : Str) : List RedirectRule :=
  match configRecords content with
  | [] => []
  | hdr :: ds => rowsOf (splitOnChar ',' hdr) ds

/-- One fetched Rebrandly link (src/import.rs), restricted to the
fields the conversion step reads. -/
structure RebrandlyLink where
  slashtag : Str
  destination : Str
  status : Option Str
deriving DecidableEq

/-- One output configuration row of the importer (struct
`DslfRedirect` of src/import.rs). -/
structure DslfRedirect where
  url : Str
  target : Str
  status : Nat
deriving DecidableEq

/-- The per-link conversion of `import_from_rebrandly` (src/import.rs):
prepend a `'/'` to the slashtag when absent and emit the row with the
hard-coded 301 status. -/
def mkRedirect (l : RebrandlyLink) : DslfRedirect :=
  let url_path := match l.slashtag with
    | '/' :: _ => l.slashtag
    | _ => '/' :: l.slashtag
  ⟨url_path, l.destination, 301⟩

/-- The conversion loop of `import_from_rebrandly` (src/import.rs lines
112-142): links whose status is present and differs from "active" are
skipped, the rest are converted in order. -/
def convertLinks : List RebrandlyLink → List DslfRedirect
  | [] => []
  | l :: ls =>
    match l.status with
    | some s => if s ≠ str "active" then convertLinks ls else mkRedirect l :: convertLinks ls
    | none => mkRedirect l :: convertLinks ls

/-- A link the conversion keeps: no upstream status, or status
"active" (formalises C9's "drops exactly those links whose upstream
status is not active"). -/
def keepLink (l : RebrandlyLink) : Bool :=
  match l.status with
  | some s => s == str "active"
  | none => true

/-- C6's notion of a malformed data row: fewer than three fields, or a
status field that does not parse as a `u16`. -/
def rowIsMalformed (H : List Str) (l : Str) : Bool :=
  decide ((splitOnChar ',' l).length < 3) ||
  (match colIdx (str "status") H with
   | some i =>
     match (splitOnChar ',' l).get? i with
     | some f => (parseU16? f).isNone
     | none => false
   | none => false)

/-- C5's notion of a data row that parses but whose status the
load-time validation rejects. -/
def badStatusRow (H : List Str) (l : Str) : Bool :=
  match exOk? (parseRow H l) with
  | some r => decide (r.status ≠ 301 ∧ r.status ≠ 302)
  | none => false

/-- The wire-status table of the claim (spec section 4.3). -/
def specWireStatus (s : Nat) (m : Bool) : Nat :=
  if s = 301 then (if m then 308 else 301) else (if m then 307 else 302)

/-- The `(destination, status)` of the last parsed row holding key `p`,
if any. -/
def lastRuleVal (H : List Str) (ls : List Str) (p : Str) : Option (Str × Nat) :=
  (((rowsOf H ls).filter (fun r => decide (r.url = p))).getLast?).map
    (fun r => (r.target, r.status))

/-- C1: for every destination and modern flag the status translation of
`create_redirect_response` matches the table exactly — (301, classic) to
301, (301, modern) to 308, (302, classic) to 302, (302, modern) to 307 —
no other status is ever produced, and under the precondition that the
stored status is 301 or 302 the error (500) branch is never taken. -/
theorem c1_status_translation (t : Str) (s : Nat) (m : Bool)
    (h : s = 301 ∨ s = 302) :
    (∃ r, create_redirect_response t s m = .ok r ∧ r.status = specWireStatus s m) ∧
    (∀ s' m' r, create_redirect_response t s' m' = .ok r →
      r.status = 301 ∨ r.status = 302 ∨ r.status = 307 ∨ r.status = 308) := by
  constructor
  · rcases h with h | h <;> subst h <;> cases m <;>
      exact ⟨_, rfl, by simp [specWireStatus]⟩
  · intro s' m' r hr
    unfold create_redirect_response at hr
    split at hr <;>
      first
        | (rw [Except.ok.injEq] at hr; subst hr; simp)
        | exact absurd hr (by simp)

theorem c1_status_translation_witness :
    ((301 : Nat) = 301 ∨ (301 : Nat) = 302) ∧
    ((∃ r, create_redirect_response (str "https://e") 301 true = .ok r ∧
        r.status = specWireStatus 301 true) ∧
      (∀ s' m' r, create_redirect_response (str "https://e") s' m' = .ok r →
        r.status = 301 ∨ r.status = 302 ∨ r.status = 307 ∨ r.status = 308)) :=
  ⟨Or.inl rfl, c1_status_translation (str "https://e") 301 true (Or.inl rfl)⟩

/-- C2: when the table holds an entry for the exact request path, the
handler answers with exactly that entry's redirect and the
trailing-slash-trimmed variant is never consulted. -/
theorem c2_exact_match_precedence (rules : Table) (modern : Bool) (path : Str)
    (t : Str) (s : Nat)
    (h : tableGet? rules ('/' :: path) = some (t, s)) :
    handle_redirect rules modern path = create_redirect_response t s modern := by
  simp only [handle_redirect, h]

theorem c2_exact_match_precedence_witness :
    tableGet? [(str "/api", (str "A", 301)), (str "/api/", (str "B", 302))]
        ('/' :: str "api/") = some (str "B", 302) ∧
    handle_redirect [(str "/api", (str "A", 301)), (str "/api/", (str "B", 302))]
        false (str "api/") = create_redirect_response (str "B") 302 false :=
  ⟨by decide,
    c2_exact_match_precedence
      [(str "/api", (str "A", 301)), (str "/api/", (str "B", 302))]
      false (str "api/") (str "B") 302 (by decide)⟩

/-- C10: every successful redirect response has an empty body and
exactly one `location` header carrying the stored destination
byte-for-byte. -/
theorem c10_redirect_response_shape (t : Str) (s : Nat) (m : Bool) (r : Response)
    (h : create_redirect_response t s m = .ok r) :
    r.body = [] ∧ r.headers = [(str "location", t)] ∧
    (r.headers.filter (fun hd => decide (hd.1 = str "location"))).length = 1 := by
  unfold create_redirect_response at h
  split at h <;>
    first
      | (rw [Except.ok.injEq] at h; subst h; simp)
      | exact absurd h (by simp)

theorem c10_redirect_response_shape_witness :
    create_redirect_response (str "https://t") 301 false =
      .ok ⟨301, [(str "location", str "https://t")], []⟩ ∧
    ((⟨301, [(str "location", str "https://t")], []⟩ : Response).body = [] ∧
      (⟨301, [(str "location", str "https://t")], []⟩ : Response).headers =
        [(str "location", str "https://t")] ∧
      (((⟨301, [(str "location", str "https://t")], []⟩ : Response)).headers.filter
        (fun hd => decide (hd.1 = str "location"))).length = 1) :=
  ⟨rfl, c10_redirect_response_shape (str "https://t") 301 false _ rfl⟩

theorem head?_dropWhile_not (p : Char → Bool) :
    ∀ (l : Str) (c : Char), (l.dropWhile p).head? = some c → p c = false := by
  intro l
  induction l with
  | nil => intro c h; simp [List.dropWhile] at h
  | cons a as ih =>
    intro c h
    by_cases hp : p a
    · rw [List.dropWhile_cons, if_pos hp] at h
      exact ih c h
    · rw [List.dropWhile_cons, if_neg hp] at h
      simp at h
      subst h
      exact Bool.eq_false_iff.mpr hp

theorem trimEndMatchesSlash_getLast (l : Str) (c : Char)
    (h : (trimEndMatchesSlash l).getLast? = some c) : c ≠ '/' := by
  unfold trimEndMatchesSlash at h
  rw [List.getLast?_reverse] at h
  have hp := head?_dropWhile_not (fun c => c == '/') l.reverse c h
  simpa using hp

theorem trimEndMatchesSlash_decomp (l : Str) :
    ∃ k, l = trimEndMatchesSlash l ++ List.replicate k '/' := by
  refine ⟨(l.reverse.takeWhile (fun c => c == '/')).length, ?_⟩
  have h1 : l = (l.reverse.takeWhile (fun c => c == '/') ++
      l.reverse.dropWhile (fun c => c == '/')).reverse := by
    rw [List.takeWhile_append_dropWhile, List.reverse_reverse]
  have h2 : (l.reverse.takeWhile (fun c => c == '/')).reverse =
      List.replicate (l.reverse.takeWhile (fun c => c == '/')).length '/' := by
    have hall : ∀ x ∈ (l.reverse.takeWhile (fun c => c == '/')).reverse, x = '/' := by
      intro x hx
      have hx' := List.mem_takeWhile_imp (List.mem_reverse.mp hx)
      simpa using hx'
    rw [List.eq_replicate_of_mem hall, List.length_reverse]
  calc l = (l.reverse.takeWhile (fun c => c == '/') ++
        l.reverse.dropWhile (fun c => c == '/')).reverse := h1
    _ = (l.reverse.dropWhile (fun c => c == '/')).reverse ++
        (l.reverse.takeWhile (fun c => c == '/')).reverse := by rw [List.reverse_append]
    _ = trimEndMatchesSlash l ++
        List.replicate (l.reverse.takeWhile (fun c => c == '/')).length '/' := by
      rw [h2]; rfl

/-- C3: when the exact request path is absent from the table, the
handler retries with the path stripped of ALL trailing slashes — the
trimmed path never ends in a slash and the request path is the trimmed
path followed by some run of slashes — and a hit on that trimmed path
answers with that entry's redirect. -/
theorem c3_trailing_slash_fallback (rules : Table) (modern : Bool) (path : Str)
    (t : Str) (s : Nat)
    (hmiss : tableGet? rules ('/' :: path) = none)
    (hne : trimEndMatchesSlash ('/' :: path) ≠ '/' :: path)
    (hhit : tableGet? rules (trimEndMatchesSlash ('/' :: path)) = some (t, s)) :
    handle_redirect rules modern path = create_redirect_response t s modern ∧
    (∀ c, (trimEndMatchesSlash ('/' :: path)).getLast? = some c → c ≠ '/') ∧
    (∃ k, '/' :: path = trimEndMatchesSlash ('/' :: path) ++ List.replicate k '/') := by
  refine ⟨?_, fun c hc => trimEndMatchesSlash_getLast _ c hc,
    trimEndMatchesSlash_decomp _⟩
  simp only [handle_redirect, hmiss, hhit]

theorem c3_trailing_slash_fallback_witness :
    (tableGet? [(str "/github", (str "G", 301))] ('/' :: str "github///") = none ∧
      trimEndMatchesSlash ('/' :: str "github///") ≠ '/' :: str "github///" ∧
      tableGet? [(str "/github", (str "G", 301))]
        (trimEndMatchesSlash ('/' :: str "github///")) = some (str "G", 301)) ∧
    (handle_redirect [(str "/github", (str "G", 301))] false (str "github///") =
        create_redirect_response (str "G") 301 false ∧
      (∀ c, (trimEndMatchesSlash ('/' :: str "github///")).getLast? = some c → c ≠ '/') ∧
      (∃ k, '/' :: str "github///" =
        trimEndMatchesSlash ('/' :: str "github///") ++ List.replicate k '/')) :=
  ⟨⟨by decide, by decide, by decide⟩,
    c3_trailing_slash_fallback [(str "/github", (str "G", 301))] false
      (str "github///") (str "G") 301 (by decide) (by decide) (by decide)⟩

theorem convertLinks_eq_filter_map (links : List RebrandlyLink) :
    convertLinks links = (links.filter keepLink).map mkRedirect := by
  induction links with
  | nil => rfl
  | cons l ls ih =>
    cases hs : l.status with
    | none => simp [convertLinks, keepLink, hs, List.filter_cons, ih]
    | some s =>
      by_cases hact : s = str "active"
      · simp [convertLinks, keepLink, hs, hact, List.filter_cons, ih]
      · simp [convertLinks, keepLink, hs, hact, List.filter_cons, ih]

theorem mkRedirect_url_head (l : RebrandlyLink) :
    (mkRedirect l).url.head? = some '/' := by
  unfold mkRedirect
  split <;> simp_all

/-- C9: the importer's conversion drops exactly the links that carry an
upstream status different from "active" (links with status "active" or
no status are kept, in order), and every emitted row has the hard-coded
status 301 and a path beginning with a slash (prepended when absent). -/
theorem c9_import_conversion (links : List RebrandlyLink) (r : DslfRedirect)
    (hr : r ∈ convertLinks links) :
    convertLinks links = (links.filter keepLink).map mkRedirect ∧
    r.status = 301 ∧ r.url.head? = some '/' := by
  refine ⟨convertLinks_eq_filter_map links, ?_, ?_⟩ <;>
    rw [convertLinks_eq_filter_map links] at hr
  · obtain ⟨l, _, rfl⟩ := List.mem_map.mp hr
    rfl
  · obtain ⟨l, _, rfl⟩ := List.mem_map.mp hr
    exact mkRedirect_url_head l

theorem c9_import_conversion_witness :
    (mkRedirect ⟨str "abc", str "https://d", some (str "active")⟩ ∈
      convertLinks [⟨str "abc", str "https://d", some (str "active")⟩,
        ⟨str "/x", str "https://e", some (str "dead")⟩,
        ⟨str "y", str "https://f", none⟩]) ∧
    (convertLinks [⟨str "abc", str "https://d", some (str "active")⟩,
        ⟨str "/x", str "https://e", some (str "dead")⟩,
        ⟨str "y", str "https://f", none⟩] =
      (([⟨str "abc", str "https://d", some (str "active")⟩,
        ⟨str "/x", str "https://e", some (str "dead")⟩,
        ⟨str "y", str "https://f", none⟩] : List RebrandlyLink).filter
          keepLink).map mkRedirect ∧
      (mkRedirect ⟨str "abc", str "https://d", some (str "active")⟩).status = 301 ∧
      (mkRedirect ⟨str "abc", str "https://d", some (str "active")⟩).url.head? =
        some '/') :=
  ⟨by decide,
    c9_import_conversion
      [⟨str "abc", str "https://d", some (str "active")⟩,
        ⟨str "/x", str "https://e", some (str "dead")⟩,
        ⟨str "y", str "https://f", none⟩]
      (mkRedirect ⟨str "abc", str "https://d", some (str "active")⟩) (by decide)⟩

/-- C7 as stated is false on the code: a line whose first non-whitespace
character is `'#'` but which begins with whitespace is NOT discarded as
a comment — here the line " #note" makes the whole load fail with a
parse error instead of being ignored. -/
theorem c7_comment_line_counterexample :
    load_redirect_rules (str "url,target,status\n/a,https://ex,301\n #note") =
      .error .rowError ∧
    isCommentLine (str " #note") = false ∧
    ((str " #note").dropWhile Char.isWhitespace).head? = some '#' :=
  ⟨rfl, rfl, rfl⟩

/-- C7 amended: only lines whose FIRST character is `'#'` are discarded
as whole-line comments; such lines never contribute rows, never cause
parse errors, and have no effect on the resulting table (a `'#'`
preceded by leading whitespace is not a comment marker). -/
theorem c7_comment_lines_discarded (ls1 ls2 : List Str) (l : Str)
    (hc : isCommentLine l = true) :
    load_from_lines (ls1 ++ l :: ls2) = load_from_lines (ls1 ++ ls2) := by
  have hl : l.head? = some '#' := by simpa [isCommentLine] using hc
  have hnb : isBlankLine l = false := by
    cases l with
    | nil => simp at hl
    | cons a tl =>
      simp at hl
      subst hl
      have hws : Char.isWhitespace '#' = false := by decide
      simp [isBlankLine, hws]
  have hfilters :
      ((ls1 ++ l :: ls2).filter (fun x => !(isBlankLine x))).filter
          (fun x => !(isCommentLine x)) =
        ((ls1 ++ ls2).filter (fun x => !(isBlankLine x))).filter
          (fun x => !(isCommentLine x)) := by
    simp [List.filter_append, List.filter_cons, hnb, hc]
  unfold load_from_lines
  rw [hfilters]

theorem c7_comment_lines_discarded_witness :
    isCommentLine (str "# note") = true ∧
    load_from_lines [str "url,target,status", str "# note", str "/a,https://b,301"] =
      load_from_lines [str "url,target,status", str "/a,https://b,301"] :=
  ⟨rfl,
    c7_comment_lines_discarded [str "url,target,status"] [str "/a,https://b,301"]
      (str "# note") rfl⟩

theorem tableGet?_filter_ne (m : Table) (k p : Str) (h : p ≠ k) :
    tableGet? (m.filter (fun q => decide (q.1 ≠ k))) p = tableGet? m p := by
  induction m with
  | nil => rfl
  | cons a m ih =>
    obtain ⟨ak, av⟩ := a
    rw [List.filter_cons]
    by_cases hak : ak = k
    · rw [if_neg (by simp [hak])]
      have hne : ¬ (ak = p) := fun e => h (e ▸ hak)
      rw [ih]
      conv_rhs => rw [tableGet?]
      rw [if_neg hne]
    · rw [if_pos (by simp [hak])]
      simp only [tableGet?]
      by_cases hap : ak = p
      · rw [if_pos hap, if_pos hap]
      · rw [if_neg hap, if_neg hap, ih]

theorem tableGet?_insert_self (m : Table) (k : Str) (v : Str × Nat) :
    tableGet? (tableInsert m k v) k = some v := by
  simp [tableInsert, tableGet?]

theorem tableGet?_insert_ne (m : Table) (k p : Str) (v : Str × Nat) (h : p ≠ k) :
    tableGet? (tableInsert m k v) p = tableGet? m p := by
  rw [tableInsert]
  rw [show tableGet? ((k, v) :: m.filter (fun q => decide (q.1 ≠ k))) p =
    tableGet? (m.filter (fun q => decide (q.1 ≠ k))) p from by
      simp [tableGet?, Ne.symm h]]
  exact tableGet?_filter_ne m k p h

theorem countKey_filter_ne (m : Table) (k p : Str) (h : p ≠ k) :
    countKey (m.filter (fun q => decide (q.1 ≠ k))) p = countKey m p := by
  unfold countKey
  rw [List.filter_filter]
  have h2 : ∀ a ∈ m, (decide (a.1 = p) && decide (a.1 ≠ k)) = decide (a.1 = p) := by
    intro a _
    by_cases ha : a.1 = p
    · simp [ha, h]
    · simp [ha]
  rw [List.filter_congr h2]

theorem countKey_insert (m : Table) (k p : Str) (v : Str × Nat) :
    countKey (tableInsert m k v) p = if p = k then 1 else countKey m p := by
  by_cases h : p = k
  · subst h
    rw [if_pos rfl]
    unfold tableInsert countKey
    rw [List.filter_cons]
    have hz : ((m.filter (fun q => decide (q.1 ≠ p))).filter
        (fun q => decide (q.1 = p))) = [] := by
      rw [List.filter_filter]
      have h2 : ∀ a ∈ m, (decide (a.1 = p) && decide (a.1 ≠ p)) = false := by
        intro a _
        by_cases ha : a.1 = p <;> simp [ha]
      rw [List.filter_congr h2, List.filter_false]
    simp [hz]
  · rw [if_neg h]
    calc countKey (tableInsert m k v) p
        = countKey (m.filter (fun q => decide (q.1 ≠ k))) p := by
          unfold tableInsert countKey
          rw [List.filter_cons]
          simp [Ne.symm h]
      _ = countKey m p := countKey_filter_ne m k p h

theorem build_rules_cons_err (H : List Str) (l : Str) (ls : List Str)
    (acc : Table) (e : LoadError) (hp : parseRow H l = .error e) :
    build_rules H (l :: ls) acc = .error e := by
  simp [build_rules, hp]

theorem build_rules_cons_ok (H : List Str) (l : Str) (ls : List Str)
    (acc : Table) (rule : RedirectRule) (hp : parseRow H l = .ok rule) :
    build_rules H (l :: ls) acc =
      if rule.status ≠ 301 ∧ rule.status ≠ 302 then
        .error (.invalidStatus rule.status)
      else build_rules H ls (tableInsert acc rule.url (rule.target, rule.status)) := by
  simp [build_rules, hp]

theorem build_rules_count (H : List Str) :
    ∀ (ls : List Str) (acc tbl : Table),
      build_rules H ls acc = .ok tbl →
      (∀ q, countKey acc q = if (tableGet? acc q).isSome then 1 else 0) →
      ∀ p, countKey tbl p = if (tableGet? tbl p).isSome then 1 else 0 := by
  intro ls
  induction ls with
  | nil =>
    intro acc tbl h hacc
    simp only [build_rules, Except.ok.injEq] at h
    subst h
    exact hacc
  | cons l ls ih =>
    intro acc tbl h hacc
    cases hp : parseRow H l with
    | error e =>
      rw [build_rules_cons_err H l ls acc e hp] at h
      exact absurd h (by simp)
    | ok rule =>
      rw [build_rules_cons_ok H l ls acc rule hp] at h
      by_cases hbad : rule.status ≠ 301 ∧ rule.status ≠ 302
      · rw [if_pos hbad] at h; exact absurd h (by simp)
      · rw [if_neg hbad] at h
        refine ih _ _ h ?_
        intro q
        by_cases hq : q = rule.url
        · subst hq
          rw [countKey_insert, if_pos rfl, tableGet?_insert_self]
          rfl
        · rw [countKey_insert, if_neg hq, tableGet?_insert_ne _ _ _ _ hq]
          exact hacc q

theorem getLast?_cons_eq {α : Type} (a : α) (l : List α) :
    (a :: l).getLast? =
      match l.getLast? with
      | some x => some x
      | none => some a := by
  induction l generalizing a with
  | nil => rfl
  | cons b t ih =>
    rw [List.getLast?_cons_cons, ih b]
    cases h : t.getLast? <;> simp [ih b, h]

theorem rowsOf_cons_ok (H : List Str) (l : Str) (rule : RedirectRule)
    (ls : List Str) (hp : parseRow H l = .ok rule) :
    rowsOf H (l :: ls) = rule :: rowsOf H ls := by
  simp [rowsOf, List.filterMap_cons, hp, exOk?]

theorem build_rules_lookup (H : List Str) :
    ∀ (ls : List Str) (acc tbl : Table), build_rules H ls acc = .ok tbl →
      ∀ p, tableGet? tbl p =
        match lastRuleVal H ls p with
        | some v => some v
        | none => tableGet? acc p := by
  intro ls
  induction ls with
  | nil =>
    intro acc tbl h p
    simp only [build_rules, Except.ok.injEq] at h
    subst h
    simp [lastRuleVal, rowsOf]
  | cons l ls ih =>
    intro acc tbl h p
    cases hp : parseRow H l with
    | error e =>
      rw [build_rules_cons_err H l ls acc e hp] at h
      exact absurd h (by simp)
    | ok rule =>
      rw [build_rules_cons_ok H l ls acc rule hp] at h
      by_cases hbad : rule.status ≠ 301 ∧ rule.status ≠ 302
      · rw [if_pos hbad] at h; exact absurd h (by simp)
      · rw [if_neg hbad] at h
        have hrec := ih _ _ h p
        by_cases hurl : rule.url = p
        · rw [lastRuleVal, rowsOf_cons_ok H l rule ls hp, List.filter_cons,
            if_pos (by simpa using hurl)]
          cases hX : ((rowsOf H ls).filter (fun r => decide (r.url = p))).getLast? with
          | none =>
            rw [getLast?_cons_eq, hX]
            have hlv : lastRuleVal H ls p = none := by simp [lastRuleVal, hX]
            rw [hlv] at hrec
            rw [hrec, ← hurl, tableGet?_insert_self]
            rfl
          | some r2 =>
            rw [getLast?_cons_eq, hX]
            have hlv : lastRuleVal H ls p = some (r2.target, r2.status) := by
              simp [lastRuleVal, hX]
            rw [hlv] at hrec
            rw [hrec]
            rfl
        · rw [lastRuleVal, rowsOf_cons_ok H l rule ls hp, List.filter_cons,
            if_neg (by simpa using hurl)]
          rw [tableGet?_insert_ne _ _ _ _ (fun e => hurl e.symm)] at hrec
          exact hrec

theorem load_redirect_rules_eq (content : Str) :
    load_redirect_rules content =
      match configRecords content with
      | [] => .ok []
      | hdr :: ds => build_rules (splitOnChar ',' hdr) ds [] := rfl

/-- C4: duplicate path keys are not an error — a successfully loaded
table holds exactly one entry for a duplicated path, carrying the
`(destination, status)` of the data row that appears last in source
order. -/
theorem c4_last_write_wins (content : Str) (tbl : Table) (p : Str)
    (hok : load_redirect_rules content = .ok tbl)
    (hdup : 1 < ((configRows content).filter (fun r => decide (r.url = p))).length) :
    countKey tbl p = 1 ∧
    tableGet? tbl p =
      (((configRows content).filter (fun r => decide (r.url = p))).getLast?).map
        (fun r => (r.target, r.status)) := by
  rw [load_redirect_rules_eq] at hok
  cases hrec : configRecords content with
  | nil =>
    exfalso
    have hz : configRows content = [] := by simp [configRows, hrec]
    rw [hz] at hdup
    simp at hdup
  | cons hdr ds =>
    rw [hrec] at hok
    have hrows : configRows content = rowsOf (splitOnChar ',' hdr) ds := by
      simp [configRows, hrec]
    have hlook := build_rules_lookup (splitOnChar ',' hdr) ds [] tbl hok p
    have hne : ((rowsOf (splitOnChar ',' hdr) ds).filter
        (fun r => decide (r.url = p))) ≠ [] := by
      rw [hrows] at hdup
      intro hempty
      rw [hempty] at hdup
      simp at hdup
    obtain ⟨r2, hr2⟩ : ∃ r2, ((rowsOf (splitOnChar ',' hdr) ds).filter
        (fun r => decide (r.url = p))).getLast? = some r2 := by
      cases hLa : ((rowsOf (splitOnChar ',' hdr) ds).filter
          (fun r => decide (r.url = p))).getLast? with
      | none => exact absurd (List.getLast?_eq_none_iff.mp hLa) hne
      | some x => exact ⟨x, rfl⟩
    have hlast : lastRuleVal (splitOnChar ',' hdr) ds p = some (r2.target, r2.status) := by
      simp [lastRuleVal, hr2]
    rw [hlast] at hlook
    constructor
    · have hcount := build_rules_count (splitOnChar ',' hdr) ds [] tbl hok
        (by intro q; simp [countKey, tableGet?]) p
      rw [hcount, hlook]
      rfl
    · rw [hlook, hrows, hr2]
      rfl

theorem c4_last_write_wins_witness :
    load_redirect_rules (str "url,target,status\n/x,A,301\n/x,B,302") =
      .ok [(str "/x", (str "B", 302))] ∧
    1 < ((configRows (str "url,target,status\n/x,A,301\n/x,B,302")).filter
      (fun r => decide (r.url = str "/x"))).length ∧
    (countKey [(str "/x", (str "B", 302))] (str "/x") = 1 ∧
      tableGet? [(str "/x", (str "B", 302))] (str "/x") =
        (((configRows (str "url,target,status\n/x,A,301\n/x,B,302")).filter
          (fun r => decide (r.url = str "/x"))).getLast?).map
            (fun r => (r.target, r.status))) :=
  ⟨rfl, by decide,
    c4_last_write_wins (str "url,target,status\n/x,A,301\n/x,B,302")
      [(str "/x", (str "B", 302))] (str "/x") rfl (by decide)⟩

/-- C8 as stated is false on the code: the loader performs no
non-emptiness validation of the path field — a row with an empty path
loads successfully and the resulting table holds an entry whose key is
the empty string (empty after trimming whitespace). -/
theorem c8_empty_path_counterexample :
    load_redirect_rules (str "url,target,status\n,https://x,301") =
      .ok [(([] : Str), (str "https://x", 301))] ∧
    tableGet? [(([] : Str), (str "https://x", 301))] [] =
      some (str "https://x", 301) ∧
    isBlankLine [] = true :=
  ⟨rfl, rfl, rfl⟩

/-- C8 amended: path keys are stored exactly as read — every key of a
successfully built table is the path field of some parsed data row,
with that row's destination and status — but no non-emptiness check is
performed, so an empty path field yields an entry with the empty key. -/
theorem c8_keys_stored_as_read (content : Str) (tbl : Table) (p : Str)
    (v : Str × Nat)
    (hok : load_redirect_rules content = .ok tbl)
    (hget : tableGet? tbl p = some v) :
    ∃ r, r ∈ configRows content ∧ r.url = p ∧ v = (r.target, r.status) := by
  rw [load_redirect_rules_eq] at hok
  cases hrec : configRecords content with
  | nil =>
    rw [hrec] at hok
    simp only [Except.ok.injEq] at hok
    subst hok
    simp [tableGet?] at hget
  | cons hdr ds =>
    rw [hrec] at hok
    have hlook := build_rules_lookup (splitOnChar ',' hdr) ds [] tbl hok p
    cases hX : lastRuleVal (splitOnChar ',' hdr) ds p with
    | none =>
      rw [hX] at hlook
      simp only [tableGet?] at hlook
      rw [hlook] at hget
      exact absurd hget (by simp)
    | some w =>
      rw [hX] at hlook
      rw [hlook] at hget
      simp only [Option.some.injEq] at hget
      subst hget
      rw [lastRuleVal] at hX
      obtain ⟨r2, hr2, hwv⟩ := Option.map_eq_some'.mp hX
      have hmemL : r2 ∈ ((rowsOf (splitOnChar ',' hdr) ds).filter
          (fun r => decide (r.url = p))) := by
        obtain ⟨hne2, heq⟩ := List.mem_getLast?_eq_getLast (Option.mem_def.mpr hr2)
        rw [heq]
        exact List.getLast_mem hne2
      have hmem := List.mem_filter.mp hmemL
      refine ⟨r2, ?_, by simpa using hmem.2, hwv.symm⟩
      rw [show configRows content = rowsOf (splitOnChar ',' hdr) ds from by
        simp [configRows, hrec]]
      exact hmem.1

theorem c8_keys_stored_as_read_witness :
    load_redirect_rules (str "url,target,status\n,https://x,301") =
      .ok [(([] : Str), (str "https://x", 301))] ∧
    tableGet? [(([] : Str), (str "https://x", 301))] [] =
      some (str "https://x", 301) ∧
    (∃ r, r ∈ configRows (str "url,target,status\n,https://x,301") ∧
      r.url = [] ∧ (str "https://x", 301) = (r.target, r.status)) :=
  ⟨rfl, rfl,
    c8_keys_stored_as_read (str "url,target,status\n,https://x,301")
      [(([] : Str), (str "https://x", 301))] [] (str "https://x", 301) rfl rfl⟩

theorem errMsg_contains_status (s : Nat) :
    strContains (errMsg (.invalidStatus s)) (natStr s) :=
  ⟨str "Invalid status code: ", str ". Must be 301 or 302", rfl⟩

theorem errMsg_contains_301or302 (s : Nat) :
    strContains (errMsg (.invalidStatus s)) (str "301 or 302") := by
  refine ⟨str "Invalid status code: " ++ natStr s ++ str ". Must be ", [], ?_⟩
  have hsplit : str ". Must be 301 or 302" = str ". Must be " ++ str "301 or 302" := rfl
  rw [show errMsg (.invalidStatus s) =
    str "Invalid status code: " ++ natStr s ++ str ". Must be 301 or 302" from rfl, hsplit]
  simp [List.append_assoc]

theorem build_rules_invalid_status (H : List Str) :
    ∀ (ls : List Str) (acc : Table),
      (∀ l ∈ ls, (exOk? (parseRow H l)).isSome = true) →
      (∃ l ∈ ls, badStatusRow H l = true) →
      ∃ s, s ≠ 301 ∧ s ≠ 302 ∧
        build_rules H ls acc = .error (.invalidStatus s) ∧
        ∃ l ∈ ls, ∃ r, parseRow H l = .ok r ∧ r.status = s := by
  intro ls
  induction ls with
  | nil =>
    intro acc _ hex
    simp at hex
  | cons l ls ih =>
    intro acc hall hex
    have hl := hall l (List.mem_cons_self l ls)
    obtain ⟨rule, hp⟩ : ∃ rule, parseRow H l = .ok rule := by
      cases hpe : parseRow H l with
      | ok r => exact ⟨r, rfl⟩
      | error e => rw [hpe] at hl; simp [exOk?] at hl
    by_cases hbad : rule.status ≠ 301 ∧ rule.status ≠ 302
    · refine ⟨rule.status, hbad.1, hbad.2, ?_, l, List.mem_cons_self l ls, rule, hp, rfl⟩
      rw [build_rules_cons_ok H l ls acc rule hp, if_pos hbad]
    · obtain ⟨l0, hl0mem, hl0bad⟩ := hex
      have hl0ls : l0 ∈ ls := by
        rcases List.mem_cons.mp hl0mem with rfl | hmem
        · exfalso
          simp [badStatusRow, hp, exOk?] at hl0bad
          exact hbad hl0bad
        · exact hmem
      obtain ⟨s, h1, h2, h3, l1, hm, hr⟩ :=
        ih (tableInsert acc rule.url (rule.target, rule.status))
          (fun x hx => hall x (List.mem_cons_of_mem l hx)) ⟨l0, hl0ls, hl0bad⟩
      exact ⟨s, h1, h2,
        by rw [build_rules_cons_ok H l ls acc rule hp, if_neg hbad]; exact h3,
        l1, List.mem_cons_of_mem l hm, hr⟩

theorem strContains_iff_infixRel (hay needle : Str) :
    strContains hay needle ↔ List.IsInfix needle hay := by
  constructor
  · rintro ⟨l, r, h⟩
    exact ⟨l, r, h.symm⟩
  · rintro ⟨l, r, h⟩
    exact ⟨l, r, h.symm⟩

/-- C5 as stated is false on the code: this configuration text contains
a data row whose status field parses to 303, outside `{301, 302}`, yet
the deserialize loop stops earlier at the malformed row "/bad,x" and
the load fails with the csv parse error — not the semantic
invalid-status error — so the error message carries neither the
offending value nor the text "301 or 302". -/
theorem c5_invalid_status_counterexample :
    parseRow (splitOnChar ',' (str "url,target,status")) (str "/a,y,303") =
      .ok ⟨str "/a", str "y", 303⟩ ∧
    configRecords (str "url,target,status\n/bad,x\n/a,y,303") =
      [str "url,target,status", str "/bad,x", str "/a,y,303"] ∧
    load_redirect_rules (str "url,target,status\n/bad,x\n/a,y,303") =
      .error .rowError ∧
    LoadError.rowError ≠ LoadError.invalidStatus 303 ∧
    ¬ strContains (errMsg .rowError) (natStr 303) ∧
    ¬ strContains (errMsg .rowError) (str "301 or 302") := by
  refine ⟨rfl, rfl, rfl, by simp, ?_, ?_⟩
  · rw [strContains_iff_infixRel]
    decide
  · rw [strContains_iff_infixRel]
    decide

/-- C5 amended: for a configuration text whose data rows all
deserialize, a row carrying a status outside `{301, 302}` makes the
whole load fail with the semantic validation error, whose message
contains the offending numeric value and the text "301 or 302" (with a
malformed row in the file the load still fails, but with that row's csv
parse error instead). -/
theorem c5_invalid_status_rejected (content : Str) (hdr : Str) (ds : List Str)
    (hrec : configRecords content = hdr :: ds)
    (hall : ∀ l ∈ ds, (exOk? (parseRow (splitOnChar ',' hdr) l)).isSome = true)
    (hex : ∃ l ∈ ds, badStatusRow (splitOnChar ',' hdr) l = true) :
    ∃ s, s ≠ 301 ∧ s ≠ 302 ∧
      load_redirect_rules content = .error (.invalidStatus s) ∧
      (∃ l ∈ ds, ∃ r, parseRow (splitOnChar ',' hdr) l = .ok r ∧ r.status = s) ∧
      strContains (errMsg (.invalidStatus s)) (natStr s) ∧
      strContains (errMsg (.invalidStatus s)) (str "301 or 302") := by
  obtain ⟨s, h1, h2, h3, h4⟩ :=
    build_rules_invalid_status (splitOnChar ',' hdr) ds [] hall hex
  refine ⟨s, h1, h2, ?_, h4, errMsg_contains_status s, errMsg_contains_301or302 s⟩
  rw [load_redirect_rules_eq, hrec]
  exact h3

theorem c5_invalid_status_rejected_witness :
    (configRecords (str "url,target,status\n/a,https://x,303") =
      str "url,target,status" :: [str "/a,https://x,303"] ∧
      (∀ l ∈ [str "/a,https://x,303"],
        (exOk? (parseRow (splitOnChar ',' (str "url,target,status")) l)).isSome = true) ∧
      (∃ l ∈ [str "/a,https://x,303"],
        badStatusRow (splitOnChar ',' (str "url,target,status")) l = true)) ∧
    (∃ s, s ≠ 301 ∧ s ≠ 302 ∧
      load_redirect_rules (str "url,target,status\n/a,https://x,303") =
        .error (.invalidStatus s) ∧
      (∃ l ∈ [str "/a,https://x,303"], ∃ r,
        parseRow (splitOnChar ',' (str "url,target,status")) l = .ok r ∧
        r.status = s) ∧
      strContains (errMsg (.invalidStatus s)) (natStr s) ∧
      strContains (errMsg (.invalidStatus s)) (str "301 or 302")) :=
  ⟨⟨rfl, by decide, by decide⟩,
    c5_invalid_status_rejected (str "url,target,status\n/a,https://x,303")
      (str "url,target,status") [str "/a,https://x,303"] rfl (by decide) (by decide)⟩

theorem colIdx_lt (name : Str) :
    ∀ (H : List Str) (i : Nat), colIdx name H = some i → i < H.length := by
  intro H
  induction H with
  | nil => intro i h; simp [colIdx] at h
  | cons f fs ih =>
    intro i h
    rw [colIdx] at h
    by_cases hf : f = name
    · rw [if_pos hf] at h
      simp only [Option.some.injEq] at h
      subst h
      simp
    · rw [if_neg hf] at h
      obtain ⟨j, hj, rfl⟩ := Option.map_eq_some'.mp h
      have := ih j hj
      simp only [List.length_cons]
      omega

theorem colIdx_get (name : Str) :
    ∀ (H : List Str) (i : Nat), colIdx name H = some i → H.get? i = some name := by
  intro H
  induction H with
  | nil => intro i h; simp [colIdx] at h
  | cons f fs ih =>
    intro i h
    rw [colIdx] at h
    by_cases hf : f = name
    · rw [if_pos hf] at h
      simp only [Option.some.injEq] at h
      subst h
      simp [hf]
    · rw [if_neg hf] at h
      obtain ⟨j, hj, rfl⟩ := Option.map_eq_some'.mp h
      simpa using ih j hj

theorem parseRow_malformed (H : List Str) (l : Str)
    (hm : rowIsMalformed H l = true) : parseRow H l = .error .rowError := by
  by_cases hlen : (splitOnChar ',' l).length ≠ H.length
  · simp [parseRow, hlen]
  · have hlen2 : (splitOnChar ',' l).length = H.length := not_ne_iff.mp hlen
    simp only [rowIsMalformed, Bool.or_eq_true, decide_eq_true_eq] at hm
    cases hm with
    | inl hlt =>
      cases hu : colIdx (str "url") H with
      | none => simp [parseRow, hlen2, hu]
      | some ui =>
        cases ht : colIdx (str "target") H with
        | none => simp [parseRow, hlen2, hu, ht]
        | some ti =>
          cases hs : colIdx (str "status") H with
          | none => simp [parseRow, hlen2, hu, ht, hs]
          | some si =>
            exfalso
            have hu2 := colIdx_get _ H ui hu
            have ht2 := colIdx_get _ H ti ht
            have hs2 := colIdx_get _ H si hs
            have hul := colIdx_lt _ H ui hu
            have htl := colIdx_lt _ H ti ht
            have hsl := colIdx_lt _ H si hs
            have hHlen : H.length < 3 := hlen2 ▸ hlt
            have hpig : ui = ti ∨ ui = si ∨ ti = si := by omega
            rcases hpig with he | he | he
            · rw [he] at hu2
              rw [hu2] at ht2
              exact absurd (Option.some.inj ht2) (by decide)
            · rw [he] at hu2
              rw [hu2] at hs2
              exact absurd (Option.some.inj hs2) (by decide)
            · rw [he] at ht2
              rw [ht2] at hs2
              exact absurd (Option.some.inj hs2) (by decide)
    | inr hrest =>
      cases hs : colIdx (str "status") H with
      | none => simp [hs] at hrest
      | some i =>
        simp only [hs] at hrest
        cases hf : (splitOnChar ',' l).get? i with
        | none =>
          have hf2 : (splitOnChar ',' l)[i]? = none := by
            rw [← List.get?_eq_getElem?]
            exact hf
          simp [hf2] at hrest
        | some f =>
          simp only [hf] at hrest
          have hpn : parseU16? f = none := Option.isNone_iff_eq_none.mp hrest
          have hf2 : (splitOnChar ',' l)[i]? = some f := by
            rw [← List.get?_eq_getElem?]
            exact hf
          cases hu : colIdx (str "url") H with
          | none => simp [parseRow, hlen2, hu]
          | some ui =>
            cases ht : colIdx (str "target") H with
            | none => simp [parseRow, hlen2, hu, ht]
            | some ti =>
              cases hgu : (splitOnChar ',' l)[ui]? with
              | none => simp [parseRow, hlen2, hu, ht, hs, hgu]
              | some u =>
                cases hgt : (splitOnChar ',' l)[ti]? with
                | none => simp [parseRow, hlen2, hu, ht, hs, hgu, hgt]
                | some t => simp [parseRow, hlen2, hu, ht, hs, hgu, hgt, hf2, hpn]

theorem build_rules_err_propagates (H : List Str) :
    ∀ (ls : List Str) (acc : Table) (l : Str), l ∈ ls →
      parseRow H l = .error .rowError →
      ∃ e, build_rules H ls acc = .error e := by
  intro ls
  induction ls with
  | nil => intro acc l h; simp at h
  | cons l1 ls ih =>
    intro acc l hmem hperr
    cases hp : parseRow H l1 with
    | error e => exact ⟨e, build_rules_cons_err H l1 ls acc e hp⟩
    | ok rule =>
      by_cases hbad : rule.status ≠ 301 ∧ rule.status ≠ 302
      · exact ⟨.invalidStatus rule.status,
          by rw [build_rules_cons_ok H l1 ls acc rule hp, if_pos hbad]⟩
      · rcases List.mem_cons.mp hmem with rfl | hmem2
        · rw [hp] at hperr
          exact absurd hperr (by simp)
        · obtain ⟨e, he⟩ :=
            ih (tableInsert acc rule.url (rule.target, rule.status)) l hmem2 hperr
          exact ⟨e, by rw [build_rules_cons_ok H l1 ls acc rule hp, if_neg hbad]; exact he⟩

/-- C6: a malformed data row — fewer than three fields, or a status
field that does not parse as an unsigned 16-bit integer — makes the
whole table build fail with an error (no table is produced), regardless
of the well-formed rows around it. -/
theorem c6_malformed_row_fatal (content : Str) (hdr l : Str) (ds : List Str)
    (hrec : configRecords content = hdr :: ds)
    (hmem : l ∈ ds)
    (hmal : rowIsMalformed (splitOnChar ',' hdr) l = true) :
    ∃ e, load_redirect_rules content = .error e := by
  obtain ⟨e, he⟩ := build_rules_err_propagates (splitOnChar ',' hdr) ds [] l hmem
    (parseRow_malformed (splitOnChar ',' hdr) l hmal)
  refine ⟨e, ?_⟩
  rw [load_redirect_rules_eq, hrec]
  exact he

theorem c6_malformed_row_fatal_witness :
    (configRecords (str "url,target,status\n/ok,https://a,301\n/bad,https://b") =
      str "url,target,status" ::
        [str "/ok,https://a,301", str "/bad,https://b"] ∧
      str "/bad,https://b" ∈ [str "/ok,https://a,301", str "/bad,https://b"] ∧
      rowIsMalformed (splitOnChar ',' (str "url,target,status"))
        (str "/bad,https://b") = true) ∧
    (∃ e, load_redirect_rules
      (str "url,target,status\n/ok,https://a,301\n/bad,https://b") = .error e) :=
  ⟨⟨rfl, by decide, by decide⟩,
    c6_malformed_row_fatal (str "url,target,status\n/ok,https://a,301\n/bad,https://b")
      (str "url,target,status") (str "/bad,https://b")
      [str "/ok,https://a,301", str "/bad,https://b"] rfl (by decide) (by decide)⟩
